import Mathlib

/-!
# Souls of Saraku quest tracker: a model of `app.js`

JavaScript strings are modelled as their sequences of UTF-16 code units, which is what
`split`, `===`, `sort`, `includes` and non-unicode regular expressions operate on.
The host's `Date` object and its locale formatting are taken as parameters (`Host`).
-/

namespace Saraku

/-! ## Strings -/

/-- A JavaScript string: its sequence of UTF-16 code units. -/
abbrev Str := List Nat

/-- UTF-16 code units of one character. -/
def utf16 (c : Char) : List Nat :=
  if c.toNat < 65536 then [c.toNat]
  else [55296 + (c.toNat - 65536) / 1024, 56320 + (c.toNat - 65536) % 1024]

/-- The JavaScript string denoted by a literal. -/
def lit (s : String) : Str := s.toList.flatMap utf16

/-- Interpolation inside a template literal: a missing (undefined) value is rendered as the
text `undefined`. -/
def tpl : Option Str → Str
  | some s => s
  | none => lit "undefined"

/-- `String.prototype.split` with a separator that matches exactly one code unit satisfying `p`:
the pieces between the separators; the empty string gives one empty piece. -/
def splitOn (p : Nat → Bool) : Str → List Str
  | [] => [[]]
  | c :: cs =>
    if p c then [] :: splitOn p cs
    else
      match splitOn p cs with
      | [] => [[c]]
      | h :: t => (c :: h) :: t

/-- The character class `[-\/]`: code unit 45 is `-`, 47 is `/`. -/
def isDateSep (c : Nat) : Bool := c == 45 || c == 47

/-- `dateStr.split(/[-\/]/)` (app.js lines 139, 186, 211). -/
def splitDate (dateStr : Str) : List Str := splitOn isDateSep dateStr

/-- The year component: first element of the array destructuring. -/
def yearPart (dateStr : Str) : Option Str := (splitDate dateStr)[0]?

/-- The month component: second element of the array destructuring. -/
def monthPart (dateStr : Str) : Option Str := (splitDate dateStr)[1]?

/-- The day component: third element of the array destructuring (only `formatDate` reads it). -/
def dayPart (dateStr : Str) : Option Str := (splitDate dateStr)[2]?

/-- The month key of a record date, the template literal of app.js lines 140 and 187:
`const [year, month] = day.date.split(/[-\/]/)` followed by the text of year, `-`, month. -/
def monthKey (dateStr : Str) : Str :=
  tpl (yearPart dateStr) ++ lit "-" ++ tpl (monthPart dateStr)

/-- `s.padStart(2, '0')`: code unit 48 is `0`. -/
def padStart2 (s : Str) : Str := List.replicate (2 - s.length) 48 ++ s

/-- `String(n)` for a non-negative integer: its decimal digits. -/
def natStr (n : Nat) : Str := (Nat.toDigits 10 n).map Char.toNat

/-- `String(n)` for an integer: code unit 45 is the minus sign. -/
def intStr : Int → Str
  | Int.ofNat n => natStr n
  | Int.negSucc n => 45 :: natStr (n + 1)

/-! ## The host -/

/-- The parts of the JavaScript host that `app.js` calls on `Date`, as functions of the values
the program passes in.
* `longDate year month day` is
  `new Date(year, month - 1, day).toLocaleDateString('en-US', ...)` with numeric year, long
  month and numeric day, for the three destructured components (a missing one is undefined);
* `monthLong year month` is
  `new Date(year, parseInt(month) - 1, 1).toLocaleDateString('en-US', ...)` with long month only;
* `parseDate s` is `new Date(s)`: `none` for an invalid date, else
  `(getFullYear(), getMonth())`. -/
structure Host where
  longDate : Option Str → Option Str → Option Str → Str
  monthLong : Option Str → Option Str → Str
  parseDate : Str → Option (Int × Nat)

/-- `formatDate(dateStr)` (app.js lines 210-218). -/
def formatDate (H : Host) (dateStr : Str) : Str :=
  H.longDate (yearPart dateStr) (monthPart dateStr) (dayPart dateStr)

/-- `getMonthName(monthKey)` (app.js lines 227-231): splits on `-` only. -/
def getMonthName (H : Host) (key : Str) : Str :=
  let parts := splitOn (fun c => c == 45) key
  H.monthLong parts[0]? parts[1]?

/-! ## Outcome highlighting -/

/-- The class `\d`: code units 48 to 57. -/
def isDigit (c : Nat) : Bool := decide (48 ≤ c) && decide (c ≤ 57)

/-- Case folding of the `i` flag without the `u` flag: a code unit is compared through its
upper-case form, and a non-ASCII code unit is never folded onto an ASCII one. Every
character of the pattern is ASCII, so only the folding of `a`..`z` (97..122) can make a
subject code unit equal to a pattern code unit. -/
def canon (c : Nat) : Nat := if 97 ≤ c ∧ c ≤ 122 then c - 32 else c

/-- Matching a literal pattern at the start of the subject, ignoring case: the matched text
(in the subject's own casing) and what follows it. -/
def matchLiteral : Str → Str → Option (Str × Str)
  | [], s => some ([], s)
  | _ :: _, [] => none
  | p :: ps, c :: cs =>
    if canon c = canon p then
      match matchLiteral ps cs with
      | some (m, r) => some (c :: m, r)
      | none => none
    else none

/-- Matching `Result \d+` at the start of the subject: the quantifier is greedy and nothing
follows it, so it takes every digit that is there. -/
def matchResult (s : Str) : Option (Str × Str) :=
  match matchLiteral (lit "Result ") s with
  | none => none
  | some (m, r) =>
    if r.takeWhile isDigit = [] then none
    else some (m ++ r.takeWhile isDigit, r.dropWhile isDigit)

/-- Matching `(Success|Victory|Result \d+|Partial Success)` with flag `i` at the start of the
subject: the alternatives are tried in the order written. -/
def matchAt (s : Str) : Option (Str × Str) :=
  match matchLiteral (lit "Success") s with
  | some r => some r
  | none =>
    match matchLiteral (lit "Victory") s with
    | some r => some r
    | none =>
      match matchResult s with
      | some r => some r
      | none => matchLiteral (lit "Partial Success") s

/-- The text put before a match by the replacement `<span class="success">$1</span>`. -/
def spanOpen : Str := lit "<span class=\"success\">"

/-- The text put after a match by the replacement. -/
def spanClose : Str := lit "</span>"

/-- The global replace: at each position from left to right, a match is replaced by the
wrapped match and the scan resumes after it; otherwise the code unit is copied and the scan
moves one position on. `fuel` bounds the number of positions visited. -/
def replaceAll : Nat → Str → Str
  | 0, s => s
  | _ + 1, [] => []
  | fuel + 1, c :: cs =>
    match matchAt (c :: cs) with
    | some (m, rest) => spanOpen ++ m ++ spanClose ++ replaceAll fuel rest
    | none => c :: replaceAll fuel cs

/-- `formatOutcome(outcome)` (app.js lines 220-225). -/
def formatOutcome (outcome : Str) : Str := replaceAll outcome.length outcome

/-! ## The timeline -/

/-- One element of `quest_progress.completed_days`. -/
structure CompletedDay where
  date : Str
  event : Str
  outcome : Str
deriving DecidableEq

/-- One `timeline-item` element: its class attribute, the text of its `date` element, and
the contents of its `event` and `outcome` elements. -/
structure TimelineItem where
  className : Str
  dateText : Str
  event : Str
  outcomeHtml : Str
deriving DecidableEq

/-- What `renderTimeline` puts in the timeline element. -/
inductive Timeline
  | noEvents
  | items (l : List TimelineItem)
deriving DecidableEq

/-- The filter of app.js lines 185-188. -/
def filteredDays (completedDays : List CompletedDay) (monthFilter : Str) : List CompletedDay :=
  completedDays.filter (fun day => decide (monthKey day.date = monthFilter))

/-- The body of the `map` callback of app.js lines 195-206. -/
def timelineItem (H : Host) (currentDate : Option Str) (day : CompletedDay) : TimelineItem :=
  let isToday := decide (some day.date = currentDate)
  let formattedDate := formatDate H day.date
  let outcomeHtml := formatOutcome day.outcome
  { className := lit "timeline-item " ++ (if isToday then lit "current-day" else lit "")
    dateText := formattedDate ++ (if isToday then lit " - TODAY" else lit "")
    event := day.event
    outcomeHtml := outcomeHtml }

/-- `renderTimeline(completedDays, currentDate, monthFilter)` (app.js lines 183-208).
`currentDate` is `none` when `quest_progress.current_date` is absent. -/
def renderTimeline (H : Host) (completedDays : List CompletedDay) (currentDate : Option Str)
    (monthFilter : Str) : Timeline :=
  let filtered := filteredDays completedDays monthFilter
  if filtered.length = 0 then Timeline.noEvents
  else Timeline.items (filtered.map (timelineItem H currentDate))

/-! ## The month selector -/

/-- `Set.prototype.add`: a set is kept as its elements in insertion order. -/
def setAdd (s : List Str) (k : Str) : List Str := if k ∈ s then s else s ++ [k]

/-- The `forEach` of app.js lines 137-141. -/
def monthsSet (completedDays : List CompletedDay) : List Str :=
  completedDays.foldl (fun s day => setAdd s (monthKey day.date)) []

/-- The order of the default `sort`: strings compared code unit by code unit. -/
def strLe : Str → Str → Bool
  | [], _ => true
  | _ :: _, [] => false
  | a :: as, b :: bs => decide (a < b) || (decide (a = b) && strLe as bs)

/-- `Array.from(monthsSet).sort()` (app.js line 143). -/
def months (completedDays : List CompletedDay) : List Str :=
  List.insertionSort (fun a b => strLe a b = true) (monthsSet completedDays)

/-- The loop of app.js lines 146-149. -/
def allMonths : List Str :=
  (List.range' 1 12).map (fun i => lit "2026-" ++ padStart2 (natStr i))

/-- One `month-btn` button: its `data-month`, whether it is enabled, whether it has the
`active` class, and its label. -/
structure MonthButton where
  monthKey : Str
  hasEvents : Bool
  isActive : Bool
  monthName : Str
deriving DecidableEq

/-- `renderMonthSelector(completedDays)` (app.js lines 135-165); it reads the global
`currentMonth`, passed here as an argument. -/
def renderMonthSelector (H : Host) (currentMonth : Option Str)
    (completedDays : List CompletedDay) : List MonthButton :=
  allMonths.map (fun key =>
    { monthKey := key
      hasEvents := decide (key ∈ months completedDays)
      isActive := decide (some key = currentMonth)
      monthName := getMonthName H key })

/-! ## The stats cards -/

/-- The class `\w`: digits, upper-case letters, the underscore (95) and lower-case letters. -/
def isWordChar (c : Nat) : Bool :=
  (decide (48 ≤ c) && decide (c ≤ 57)) || (decide (65 ≤ c) && decide (c ≤ 90)) ||
    decide (c = 95) || (decide (97 ≤ c) && decide (c ≤ 122))

/-- `l.toUpperCase()` for a one-unit string `l` matched by `\w`: only `a`..`z` change. -/
def toUpperCase (c : Nat) : Nat := if 97 ≤ c ∧ c ≤ 122 then c - 32 else c

/-- `key.replace(/_/g, ' ')`: every underscore (95) becomes a space (32). -/
def replaceUnderscores (key : Str) : Str := key.map (fun c => if c = 95 then 32 else c)

/-- `s.replace(/\b\w/g, l => l.toUpperCase())`: `\b\w` matches a word character that is not
preceded by a word character; `prevWord` tells whether the code unit before the current
position is a word character (false at the start of the string). -/
def capitalizeWords : Bool → Str → Str
  | _, [] => []
  | prevWord, c :: cs =>
    (if isWordChar c && !prevWord then toUpperCase c else c) :: capitalizeWords (isWordChar c) cs

/-- The `label` of app.js line 100. -/
def modifierLabel (key : Str) : Str := capitalizeWords false (replaceUnderscores key)

/-- The text of one `modifier-badge` element (app.js line 101). -/
def modifierBadge (key : Str) (value : Int) : Str :=
  lit "✨ " ++ modifierLabel key ++ lit ": +" ++ intStr value

/-- The object `character.stats`; a field that is absent is `none`. -/
structure Stats where
  hp : Option Int
  max_hp : Option Int
  spell_points : Option Int
deriving DecidableEq

/-- The object `character`; `charClass` is its field `class`. -/
structure Character where
  name : Option Str
  charClass : Option Str
  stats : Option Stats
deriving DecidableEq

/-- The object `quest_progress`; `active_modifiers` holds the entries in the order of
`Object.entries`. -/
structure QuestProgress where
  current_date : Option Str
  completed_days : Option (List CompletedDay)
  active_modifiers : Option (List (Str × Int))
deriving DecidableEq

/-- A loaded document; a field that is absent is `none`. -/
structure QuestDocument where
  character : Option Character
  quest_progress : Option QuestProgress
deriving DecidableEq

/-- Interpolation of a number that may be absent. -/
def tplInt : Option Int → Str
  | some n => intStr n
  | none => lit "undefined"

/-- The texts that `renderStats` writes into the stats container: character name and class,
the health line, the spell points, the modifier badges and the day count. The width of the
health bar (a floating-point percentage) is left out. -/
structure StatsCards where
  name : Str
  charClass : Str
  health : Str
  spellPoints : Str
  modifierBadges : List Str
  dayCount : Nat
deriving DecidableEq

/-- `renderStats(char, quest)` (app.js lines 94-133): the new contents of the stats container,
or `none` when a property is read from an undefined value (a `TypeError` is thrown, before
the container is assigned). -/
def renderStats (char : Option Character) (quest : Option QuestProgress) : Option StatsCards :=
  match char with
  | none => none
  | some char =>
    match char.stats with
    | none => none
    | some stats =>
      match quest with
      | none => none
      | some quest =>
        let modifiers := quest.active_modifiers.getD []
        let modifierBadges := modifiers.map (fun kv => modifierBadge kv.1 kv.2)
        match quest.completed_days with
        | none => none
        | some completedDays =>
          some
            { name := tpl char.name
              charClass := tpl char.charClass
              health := tplInt stats.hp ++ lit " / " ++ tplInt stats.max_hp
              spellPoints := tplInt stats.spell_points
              modifierBadges := modifierBadges
              dayCount := completedDays.length }

/-! ## Global state and loading -/

/-- What the error container shows. -/
inductive Banner
  | empty
  | error (message : Str)
  | success
  | warning
deriving DecidableEq

/-- The two global variables and the elements the program writes to. -/
structure AppState where
  questData : Option QuestDocument
  currentMonth : Option Str
  statsContainer : Option StatsCards
  monthSelector : List MonthButton
  timeline : Option Timeline
  errorContainer : Banner
  contentHidden : Bool
  uploadHidden : Bool
deriving DecidableEq

/-- How a call ended: normally, or by a thrown exception; both carry the state reached. -/
inductive Run
  | done (s : AppState)
  | threw (s : AppState)
deriving DecidableEq

/-- The month of `new Date(current_date)` as app.js line 83 writes it; an invalid date gives
`NaN` for both numbers. -/
def currentMonthOf (H : Host) (current_date : Option Str) : Str :=
  match current_date.bind H.parseDate with
  | some (year, month) => intStr year ++ lit "-" ++ padStart2 (natStr (month + 1))
  | none => lit "NaN" ++ lit "-" ++ padStart2 (lit "NaN")

/-- `renderQuestData(data)` (app.js lines 74-92). -/
def renderQuestData (H : Host) (s : AppState) (data : QuestDocument) : Run :=
  match renderStats data.character data.quest_progress with
  | none => Run.threw s
  | some cards =>
    match data.quest_progress with
    | none => Run.threw s
    | some quest =>
      match quest.completed_days with
      | none => Run.threw s
      | some completedDays =>
        let currentMonth := currentMonthOf H quest.current_date
        Run.done
          { s with
            statsContainer := some cards
            currentMonth := some currentMonth
            monthSelector := renderMonthSelector H (some currentMonth) completedDays
            timeline := some (renderTimeline H completedDays quest.current_date currentMonth)
            contentHidden := false }

/-- `showError(message)` (app.js lines 69-72). -/
def showError (s : AppState) (message : Str) : AppState :=
  { s with errorContainer := Banner.error message, contentHidden := true }

/-- The `reader.onload` handler of the file input (app.js lines 25-35); `parsed` is the result
of `JSON.parse`, `none` when it throws. -/
def onFileRead (H : Host) (s : AppState) (parsed : Option QuestDocument) : AppState :=
  match parsed with
  | none => showError s (lit "Invalid JSON file. Please check your file format.")
  | some data =>
    match renderQuestData H { s with questData := some data } data with
    | Run.done s₂ => { s₂ with errorContainer := Banner.empty, uploadHidden := true }
    | Run.threw s₂ => showError s₂ (lit "Invalid JSON file. Please check your file format.")

/-- `loadQuestDataFromFile(filename)` (app.js lines 39-67) from the point where the fetch has
settled; `fetched` is the parsed response, `none` when the fetch, the status check or the
parsing fails. The timer that clears the success banner is a later event. -/
def loadQuestDataFromFile (H : Host) (s : AppState) (fetched : Option QuestDocument) : AppState :=
  match fetched with
  | none => { s with errorContainer := Banner.warning }
  | some data =>
    match renderQuestData H { s with questData := some data } data with
    | Run.done s₂ => { s₂ with uploadHidden := true, errorContainer := Banner.success }
    | Run.threw s₂ => { s₂ with errorContainer := Banner.warning }

/-- The state when the script has run and nothing is loaded yet: both globals are `null`
(app.js lines 2-3); the elements of the page are taken as empty, with the content hidden
and the upload section shown. -/
def initialState : AppState :=
  { questData := none
    currentMonth := none
    statsContainer := none
    monthSelector := []
    timeline := none
    errorContainer := Banner.empty
    contentHidden := true
    uploadHidden := false }

/-! ## Notions used to state the properties -/

/-- A date string written with `/` (47) in place of every `-` (45). -/
def dashToSlash (s : Str) : Str := s.map (fun c => if c = 45 then 47 else c)

/-- A record with its date rewritten by `dashToSlash`. -/
def withSlashes (d : CompletedDay) : CompletedDay := { d with date := dashToSlash d.date }

/-- Equality of two strings up to the case of ASCII letters. -/
def eqIgnoreCase (a b : Str) : Prop := a.map canon = b.map canon

instance eqIgnoreCase_decidable (a b : Str) : Decidable (eqIgnoreCase a b) :=
  inferInstanceAs (Decidable (a.map canon = b.map canon))

/-- The phrases to highlight, as the specification lists them: `Success`, `Victory`,
`Partial Success`, or `Result ` followed by one or more digits, in any letter case. -/
def IsPhrase (m : Str) : Prop :=
  eqIgnoreCase m (lit "Success") ∨ eqIgnoreCase m (lit "Victory") ∨
    eqIgnoreCase m (lit "Partial Success") ∨
    ∃ r ds, m = r ++ ds ∧ eqIgnoreCase r (lit "Result ") ∧ ds ≠ [] ∧ ∀ c ∈ ds, isDigit c = true

/-- The highlighting of a text as the specification words it, reading the text from the
left: where no phrase starts, the code unit is kept in place; where a phrase starts, the
longest phrase starting there is wrapped, in its original casing, and reading resumes
after it. -/
inductive Highlighted : Str → Str → Prop
  | done : Highlighted [] []
  | keep (c : Nat) (rest out : Str) :
      (∀ m r, IsPhrase m → c :: rest ≠ m ++ r) → Highlighted rest out →
      Highlighted (c :: rest) (c :: out)
  | mark (m rest out : Str) :
      IsPhrase m → (∀ m₂ r₂, IsPhrase m₂ → m ++ rest = m₂ ++ r₂ → m₂.length ≤ m.length) →
      Highlighted rest out →
      Highlighted (m ++ rest) (spanOpen ++ m ++ spanClose ++ out)

/-- Title-casing as the specification words it: the first code unit of every word is
upper-cased, words being delimited by spaces (32); `afterSpace` tells whether the current
position starts a word. -/
def capitalizeAfterSpaces : Bool → Str → Str
  | _, [] => []
  | afterSpace, c :: cs =>
    (if afterSpace && !decide (c = 32) then toUpperCase c else c) ::
      capitalizeAfterSpaces (decide (c = 32)) cs

/-- The badge label as the specification words it: underscores replaced by spaces, then the
first letter of every space-delimited word upper-cased. -/
def specLabel (key : Str) : Str := capitalizeAfterSpaces true (replaceUnderscores key)

/-- A complete document: one record, dated like `current_date`. -/
def sampleDocument : QuestDocument :=
  { character := some
      { name := some (lit "Aiko")
        charClass := some (lit "Ronin")
        stats := some { hp := some 50, max_hp := some 100, spell_points := some 3 } }
    quest_progress := some
      { current_date := some (lit "2026-01-05")
        completed_days := some [⟨lit "2026-01-05", lit "Training", lit "Success"⟩]
        active_modifiers := some [(lit "fire_resist", 2)] } }

/-- The sample document without its `character` field. -/
def documentWithoutCharacter : QuestDocument := { sampleDocument with character := none }

/-- The sample document without `quest_progress.current_date`. -/
def documentWithoutCurrentDate : QuestDocument :=
  { sampleDocument with
    quest_progress := some
      { current_date := none
        completed_days := some [⟨lit "2026-01-05", lit "Training", lit "Success"⟩]
        active_modifiers := some [(lit "fire_resist", 2)] } }

/-- The message of the file-upload handler. -/
def invalidJsonMessage : Str := lit "Invalid JSON file. Please check your file format."

/-! ## Theorems -/

/-! ### Splitting -/

theorem splitOn_ne_nil (p : Nat → Bool) (s : Str) : splitOn p s ≠ [] := by
  cases s with
  | nil => simp [splitOn]
  | cons c cs =>
    unfold splitOn
    split
    · simp
    · split <;> simp

theorem splitOn_noSep (p : Nat → Bool) (a : Str) (ha : ∀ c ∈ a, p c = false) :
    splitOn p a = [a] := by
  induction a with
  | nil => rfl
  | cons c cs ih =>
    have hc : p c = false := ha c (List.mem_cons_self _ _)
    have ih2 := ih (fun x hx => ha x (List.mem_cons_of_mem _ hx))
    simp [splitOn, hc, ih2]

theorem splitOn_append_sep (p : Nat → Bool) (a : Str) (x : Nat) (rest : Str)
    (ha : ∀ c ∈ a, p c = false) (hx : p x = true) :
    splitOn p (a ++ x :: rest) = a :: splitOn p rest := by
  induction a with
  | nil => simp [splitOn, hx]
  | cons c cs ih =>
    have hc : p c = false := ha c (List.mem_cons_self _ _)
    have ih2 := ih (fun y hy => ha y (List.mem_cons_of_mem _ hy))
    simp [splitOn, hc, ih2]

theorem splitOn_pieces (p : Nat → Bool) (s : Str) :
    ∀ piece ∈ splitOn p s, ∀ c ∈ piece, p c = false := by
  induction s with
  | nil => simp [splitOn]
  | cons c cs ih =>
    unfold splitOn
    by_cases hc : p c = true
    · simp only [hc, if_true]
      intro piece hp
      rcases List.mem_cons.1 hp with h | h
      · subst h; simp
      · exact ih piece h
    · have hc2 : p c = false := by simpa using hc
      simp only [hc2]
      cases hsp : splitOn p cs with
      | nil => exact absurd hsp (splitOn_ne_nil p cs)
      | cons h t =>
        rw [hsp] at ih
        intro piece hp
        simp only [Bool.false_eq_true, if_false] at hp
        rcases List.mem_cons.1 hp with h1 | h1
        · subst h1
          intro x hx
          rcases List.mem_cons.1 hx with h2 | h2
          · subst h2; exact hc2
          · exact ih h (List.mem_cons_self _ _) x h2
        · exact ih piece (List.mem_cons_of_mem _ h1)

theorem splitDate_dashToSlash (s : Str) : splitDate (dashToSlash s) = splitDate s := by
  unfold splitDate dashToSlash
  induction s with
  | nil => rfl
  | cons c cs ih =>
    by_cases h45 : c = 45
    · subst h45
      simp [splitOn, isDateSep, ih]
    · simp only [List.map_cons, h45, if_false]
      unfold splitOn
      rw [ih]

theorem lit_dash : lit "-" = [45] := by decide

theorem lit_slash : lit "/" = [47] := by decide

theorem isDigit_not_sep (c : Nat) (h : isDigit c = true) : isDateSep c = false := by
  simp [isDigit] at h
  simp [isDateSep]
  omega

theorem yearPart_isSome (s : Str) : ∃ y, yearPart s = some y ∧ ∀ c ∈ y, isDateSep c = false := by
  unfold yearPart
  cases h : splitDate s with
  | nil => exact absurd h (splitOn_ne_nil _ _)
  | cons y t =>
    refine ⟨y, by simp, ?_⟩
    have := splitOn_pieces isDateSep s y (by unfold splitDate at h; rw [h]; simp)
    exact this

theorem append_sep_inj (x : Nat) : ∀ (a b c d : Str), x ∉ a → x ∉ c →
    a ++ x :: b = c ++ x :: d → a = c ∧ b = d := by
  intro a
  induction a with
  | nil =>
    intro b c d _ hc h
    cases c with
    | nil => simpa using h
    | cons c0 cs =>
      simp at h
      exact absurd h.1 (by intro e; exact hc (by simp [e]))
  | cons a0 as ih =>
    intro b c d ha hc h
    cases c with
    | nil =>
      simp at h
      exact absurd h.1.symm (by intro e; exact ha (by simp [e]))
    | cons c0 cs =>
      simp at h
      obtain ⟨h0, h1⟩ := h
      have := ih b cs d (fun e => ha (List.mem_cons_of_mem _ e))
        (fun e => hc (List.mem_cons_of_mem _ e)) h1
      exact ⟨by rw [h0, this.1], this.2⟩

theorem monthKey_eq_iff_parts (a b : Str) :
    monthKey a = monthKey b ↔
      tpl (yearPart a) = tpl (yearPart b) ∧ tpl (monthPart a) = tpl (monthPart b) := by
  constructor
  · intro h
    obtain ⟨ya, hya, hsa⟩ := yearPart_isSome a
    obtain ⟨yb, hyb, hsb⟩ := yearPart_isSome b
    unfold monthKey at h
    rw [hya, hyb, lit_dash] at h
    simp only [tpl, List.append_assoc, List.singleton_append] at h
    rw [hya, hyb]
    simp only [tpl]
    refine append_sep_inj 45 ya _ yb _ ?_ ?_ h
    · intro hm; have := hsa 45 hm; simp [isDateSep] at this
    · intro hm; have := hsb 45 hm; simp [isDateSep] at this
  · intro h
    unfold monthKey
    rw [h.1, h.2]

theorem monthKey_dashToSlash (s : Str) : monthKey (dashToSlash s) = monthKey s := by
  unfold monthKey yearPart monthPart
  rw [splitDate_dashToSlash]

theorem formatDate_dashToSlash (H : Host) (s : Str) :
    formatDate H (dashToSlash s) = formatDate H s := by
  unfold formatDate yearPart monthPart dayPart
  rw [splitDate_dashToSlash]

theorem splitDate_three (x : Nat) (hx : isDateSep x = true) (y m d : Str)
    (hy : ∀ c ∈ y, isDigit c = true) (hm : ∀ c ∈ m, isDigit c = true)
    (hd : ∀ c ∈ d, isDigit c = true) :
    splitDate (y ++ [x] ++ m ++ [x] ++ d) = [y, m, d] := by
  unfold splitDate
  have e : y ++ [x] ++ m ++ [x] ++ d = y ++ x :: (m ++ x :: d) := by simp
  rw [e, splitOn_append_sep _ _ _ _ (fun c hc => isDigit_not_sep c (hy c hc)) hx,
    splitOn_append_sep _ _ _ _ (fun c hc => isDigit_not_sep c (hm c hc)) hx,
    splitOn_noSep _ _ (fun c hc => isDigit_not_sep c (hd c hc))]

theorem months_eq_of_keys (l₁ l₂ : List CompletedDay)
    (h : l₁.map (fun d => monthKey d.date) = l₂.map (fun d => monthKey d.date)) :
    months l₁ = months l₂ := by
  have e : ∀ l : List CompletedDay,
      monthsSet l = (l.map (fun d => monthKey d.date)).foldl setAdd [] := by
    intro l
    unfold monthsSet
    rw [List.foldl_map]
  unfold months
  rw [e, e, h]

/-! ### The set of months and its order -/

theorem strLe_total : ∀ a b : Str, strLe a b = true ∨ strLe b a = true
  | [], _ => Or.inl rfl
  | _ :: _, [] => Or.inr rfl
  | x :: xs, y :: ys => by
    rcases Nat.lt_trichotomy x y with h | h | h
    · left; simp [strLe, h]
    · subst h
      rcases strLe_total xs ys with h2 | h2
      · left; simp [strLe, h2]
      · right; simp [strLe, h2]
    · right; simp [strLe, h]

theorem strLe_antisymm : ∀ a b : Str, strLe a b = true → strLe b a = true → a = b
  | [], [], _, _ => rfl
  | [], _ :: _, _, h => by simp [strLe] at h
  | _ :: _, [], h, _ => by simp [strLe] at h
  | x :: xs, y :: ys, h1, h2 => by
    simp only [strLe, Bool.or_eq_true, Bool.and_eq_true, decide_eq_true_eq] at h1 h2
    rcases h1 with h1 | ⟨e1, h1⟩
    · rcases h2 with h2 | ⟨e2, _⟩
      · omega
      · omega
    · rcases h2 with h2 | ⟨_, h2⟩
      · omega
      · rw [e1, strLe_antisymm xs ys h1 h2]

theorem strLe_trans : ∀ a b c : Str, strLe a b = true → strLe b c = true → strLe a c = true
  | [], _, _, _, _ => rfl
  | _ :: _, [], _, h, _ => by simp [strLe] at h
  | _ :: _, _ :: _, [], _, h => by simp [strLe] at h
  | x :: xs, y :: ys, z :: zs, h1, h2 => by
    simp only [strLe, Bool.or_eq_true, Bool.and_eq_true, decide_eq_true_eq] at h1 h2 ⊢
    rcases h1 with h1 | ⟨e1, h1⟩
    · rcases h2 with h2 | ⟨e2, _⟩
      · left; omega
      · left; omega
    · rcases h2 with h2 | ⟨e2, h2⟩
      · left; omega
      · right; exact ⟨by omega, strLe_trans xs ys zs h1 h2⟩

instance strLe_isTotal : IsTotal Str (fun a b => strLe a b = true) := ⟨strLe_total⟩

instance strLe_isTrans : IsTrans Str (fun a b => strLe a b = true) := ⟨strLe_trans⟩

instance strLe_isAntisymm : IsAntisymm Str (fun a b => strLe a b = true) := ⟨strLe_antisymm⟩

theorem foldl_setAdd_nodup (keys : List Str) :
    ∀ acc : List Str, acc.Nodup → (keys.foldl setAdd acc).Nodup := by
  induction keys with
  | nil => intro acc h; exact h
  | cons k ks ih =>
    intro acc h
    simp only [List.foldl_cons]
    apply ih
    unfold setAdd
    by_cases hk : k ∈ acc
    · simp [hk, h]
    · simp only [hk, if_false]
      rw [List.nodup_append]
      refine ⟨h, List.nodup_singleton k, ?_⟩
      intro x hx hx2
      rw [List.mem_singleton] at hx2
      exact hk (hx2 ▸ hx)

theorem mem_foldl_setAdd (keys : List Str) :
    ∀ (acc : List Str) (x : Str), x ∈ keys.foldl setAdd acc ↔ x ∈ acc ∨ x ∈ keys := by
  induction keys with
  | nil => intro acc x; simp
  | cons k ks ih =>
    intro acc x
    simp only [List.foldl_cons]
    rw [ih]
    unfold setAdd
    by_cases hk : k ∈ acc
    · simp only [hk, if_true, List.mem_cons]
      constructor
      · rintro (h | h)
        · exact Or.inl h
        · exact Or.inr (Or.inr h)
      · rintro (h | h | h)
        · exact Or.inl h
        · exact Or.inl (h ▸ hk)
        · exact Or.inr h
    · simp only [hk, if_false, List.mem_append, List.mem_singleton, List.mem_cons]
      tauto

theorem monthsSet_eq (l : List CompletedDay) :
    monthsSet l = (l.map (fun d => monthKey d.date)).foldl setAdd [] := by
  unfold monthsSet
  rw [List.foldl_map]

theorem monthsSet_nodup (l : List CompletedDay) : (monthsSet l).Nodup := by
  rw [monthsSet_eq]
  exact foldl_setAdd_nodup _ _ List.nodup_nil

theorem mem_monthsSet (l : List CompletedDay) (k : Str) :
    k ∈ monthsSet l ↔ ∃ d ∈ l, monthKey d.date = k := by
  rw [monthsSet_eq, mem_foldl_setAdd]
  simp

theorem mem_months (l : List CompletedDay) (k : Str) :
    k ∈ months l ↔ ∃ d ∈ l, monthKey d.date = k := by
  unfold months
  rw [List.mem_insertionSort, mem_monthsSet]

theorem months_nodup (l : List CompletedDay) : (months l).Nodup :=
  (List.perm_insertionSort _ _).nodup_iff.2 (monthsSet_nodup l)

theorem months_sorted (l : List CompletedDay) :
    (months l).Sorted (fun a b => strLe a b = true) :=
  List.sorted_insertionSort _ _

theorem months_perm (l₁ l₂ : List CompletedDay) (h : l₁.Perm l₂) : months l₁ = months l₂ := by
  have hp : (monthsSet l₁).Perm (monthsSet l₂) := by
    rw [List.perm_ext_iff_of_nodup (monthsSet_nodup l₁) (monthsSet_nodup l₂)]
    intro k
    rw [mem_monthsSet, mem_monthsSet]
    constructor
    · rintro ⟨d, hd, e⟩; exact ⟨d, h.mem_iff.1 hd, e⟩
    · rintro ⟨d, hd, e⟩; exact ⟨d, h.mem_iff.2 hd, e⟩
  have hq : (months l₁).Perm (months l₂) :=
    ((List.perm_insertionSort _ _).trans hp).trans (List.perm_insertionSort _ _).symm
  exact List.eq_of_perm_of_sorted hq (months_sorted l₁) (months_sorted l₂)

/-! ### Claims about dates and the timeline -/

/-- C1: the records that `renderTimeline` renders are the records of `completedDays` whose
month key equals `monthFilter`, each as often as it occurs in `completedDays` and in the
same relative order; when there is none the timeline shows the no-events message. -/
theorem renderTimeline_stable_filter (H : Host) (completedDays : List CompletedDay)
    (currentDate : Option Str) (monthFilter : Str) :
    renderTimeline H completedDays currentDate monthFilter =
        (if filteredDays completedDays monthFilter = [] then Timeline.noEvents
         else Timeline.items
           ((filteredDays completedDays monthFilter).map (timelineItem H currentDate))) ∧
      (filteredDays completedDays monthFilter).Sublist completedDays ∧
      (∀ d, d ∈ filteredDays completedDays monthFilter ↔
        d ∈ completedDays ∧ monthKey d.date = monthFilter) ∧
      (∀ d, (filteredDays completedDays monthFilter).count d =
        if monthKey d.date = monthFilter then completedDays.count d else 0) := by
  refine ⟨?_, ?_, ?_, ?_⟩
  · unfold renderTimeline
    simp only [List.length_eq_zero]
  · exact List.filter_sublist _
  · intro d
    simp [filteredDays, List.mem_filter]
  · intro d
    unfold filteredDays
    by_cases h : monthKey d.date = monthFilter
    · rw [if_pos h]
      exact List.count_filter (by simpa using h)
    · rw [if_neg h]
      apply List.count_eq_zero_of_not_mem
      simp [List.mem_filter, h]

/-- C2: a valid date written with `-` and the same date written with `/` split into the same
year, month and day components and get the same month key and the same `formatDate` label;
and rewriting `-` as `/` in the dates of any records changes neither which records
`renderTimeline` selects nor the buttons of `renderMonthSelector`. -/
theorem separators_agree (y m d : Str) (hy : ∀ c ∈ y, isDigit c = true)
    (hm : ∀ c ∈ m, isDigit c = true) (hd : ∀ c ∈ d, isDigit c = true) :
    splitDate (y ++ lit "-" ++ m ++ lit "-" ++ d) = [y, m, d] ∧
      splitDate (y ++ lit "/" ++ m ++ lit "/" ++ d) = [y, m, d] ∧
      monthKey (y ++ lit "-" ++ m ++ lit "-" ++ d) = y ++ lit "-" ++ m ∧
      monthKey (y ++ lit "/" ++ m ++ lit "/" ++ d) = y ++ lit "-" ++ m ∧
      (∀ H : Host, formatDate H (y ++ lit "-" ++ m ++ lit "-" ++ d) =
        formatDate H (y ++ lit "/" ++ m ++ lit "/" ++ d)) ∧
      (∀ s : Str, splitDate (dashToSlash s) = splitDate s ∧
        monthKey (dashToSlash s) = monthKey s ∧
        ∀ H : Host, formatDate H (dashToSlash s) = formatDate H s) ∧
      (∀ (days : List CompletedDay) (monthFilter : Str),
        filteredDays (days.map withSlashes) monthFilter =
          (filteredDays days monthFilter).map withSlashes) ∧
      (∀ (H : Host) (currentMonth : Option Str) (days : List CompletedDay),
        renderMonthSelector H currentMonth (days.map withSlashes) =
          renderMonthSelector H currentMonth days) := by
  have h1 := splitDate_three 45 (by decide) y m d hy hm hd
  have h2 := splitDate_three 47 (by decide) y m d hy hm hd
  rw [← lit_dash] at h1
  rw [← lit_slash] at h2
  refine ⟨h1, h2, ?_, ?_, ?_, ?_, ?_, ?_⟩
  · unfold monthKey yearPart monthPart
    rw [h1]
    rfl
  · unfold monthKey yearPart monthPart
    rw [h2]
    rfl
  · intro H
    unfold formatDate yearPart monthPart dayPart
    rw [h1, h2]
  · intro s
    exact ⟨splitDate_dashToSlash s, monthKey_dashToSlash s, fun H => formatDate_dashToSlash H s⟩
  · intro days monthFilter
    unfold filteredDays
    rw [List.filter_map]
    congr 1
    apply List.filter_congr
    intro x _
    simp [withSlashes, monthKey_dashToSlash]
  · intro H currentMonth days
    unfold renderMonthSelector
    have : months (days.map withSlashes) = months days := by
      apply months_eq_of_keys
      simp [withSlashes, monthKey_dashToSlash]
    rw [this]

/-- Witness of C2 at the date 2026-01-05. -/
theorem separators_agree_witness :
    splitDate (lit "2026" ++ lit "-" ++ lit "01" ++ lit "-" ++ lit "05") =
        [lit "2026", lit "01", lit "05"] ∧
      splitDate (lit "2026" ++ lit "/" ++ lit "01" ++ lit "/" ++ lit "05") =
        [lit "2026", lit "01", lit "05"] ∧
      monthKey (lit "2026" ++ lit "-" ++ lit "01" ++ lit "-" ++ lit "05") =
        lit "2026" ++ lit "-" ++ lit "01" ∧
      monthKey (lit "2026" ++ lit "/" ++ lit "01" ++ lit "/" ++ lit "05") =
        lit "2026" ++ lit "-" ++ lit "01" :=
  have h := separators_agree (lit "2026") (lit "01") (lit "05") (by decide) (by decide)
    (by decide)
  ⟨h.1, h.2.1, h.2.2.1, h.2.2.2.1⟩

/-- C3, as the code stands: the dates 2026-1-05 and 2026-01-05 have equal year and month
components after zero-padding the month to two digits, yet they get different month keys,
`2026-1` and `2026-01`. -/
theorem monthKey_not_padded_example :
    monthKey (lit "2026-1-05") = lit "2026-1" ∧
      monthKey (lit "2026-01-05") = lit "2026-01" ∧
      monthKey (lit "2026-1-05") ≠ monthKey (lit "2026-01-05") ∧
      yearPart (lit "2026-1-05") = yearPart (lit "2026-01-05") ∧
      (monthPart (lit "2026-1-05")).map padStart2 =
        (monthPart (lit "2026-01-05")).map padStart2 := by
  decide

/-- C3 amended: the month key of a record is its year component joined by `-` with its month
component exactly as written, without padding, and two dates get the same month key if and
only if their year components are textually equal and their month components are textually
equal (a missing month component counting as the text `undefined`). -/
theorem monthKey_eq_iff (a b : Str) :
    (∀ y m rest, splitDate a = y :: m :: rest → monthKey a = y ++ lit "-" ++ m) ∧
      (monthKey a = monthKey b ↔
        tpl (yearPart a) = tpl (yearPart b) ∧ tpl (monthPart a) = tpl (monthPart b)) := by
  refine ⟨?_, monthKey_eq_iff_parts a b⟩
  intro y m rest h
  simp [monthKey, yearPart, monthPart, h, tpl]

/-- C7: an entry of the timeline carries the class `current-day` and the suffix ` - TODAY`
if and only if the raw date string of its record equals `currentDate`; the record dated
2026/01/05 is rendered for month 2026-01 but not flagged when `currentDate` is 2026-01-05. -/
theorem today_iff_same_string (H : Host) (currentDate : Option Str) :
    (∀ (completedDays : List CompletedDay) (monthFilter : Str) (items : List TimelineItem),
        renderTimeline H completedDays currentDate monthFilter = Timeline.items items →
        items = (filteredDays completedDays monthFilter).map (timelineItem H currentDate)) ∧
      (∀ d : CompletedDay,
        ((timelineItem H currentDate d).className = lit "timeline-item current-day" ↔
          some d.date = currentDate) ∧
        ((timelineItem H currentDate d).dateText = formatDate H d.date ++ lit " - TODAY" ↔
          some d.date = currentDate) ∧
        (some d.date ≠ currentDate →
          (timelineItem H currentDate d).className = lit "timeline-item " ∧
          (timelineItem H currentDate d).dateText = formatDate H d.date)) ∧
      (∀ event outcome : Str,
        renderTimeline H [⟨lit "2026/01/05", event, outcome⟩] (some (lit "2026-01-05"))
            (lit "2026-01") =
          Timeline.items
            [⟨lit "timeline-item ", formatDate H (lit "2026/01/05"), event,
              formatOutcome outcome⟩]) := by
  have e1 : lit "timeline-item " ++ lit "current-day" = lit "timeline-item current-day" := by
    decide
  have e2 : lit "timeline-item " ++ lit "" = lit "timeline-item " := by decide
  have e3 : lit "timeline-item " ≠ lit "timeline-item current-day" := by decide
  have e4 : ∀ x : Str, x ++ lit "" = x := by intro x; simp [lit]
  have e5 : ∀ x : Str, x ≠ x ++ lit " - TODAY" := by
    intro x e
    have := congrArg List.length e
    simp [lit, utf16] at this
  refine ⟨?_, ?_, ?_⟩
  · intro completedDays monthFilter items h
    unfold renderTimeline at h
    simp only at h
    split at h
    · cases h
    · injection h with h
      exact h.symm
  · intro d
    by_cases h : some d.date = currentDate
    · have hd : decide (some d.date = currentDate) = true := by simp [h]
      simp only [timelineItem, hd, if_true, e1]
      exact ⟨⟨fun _ => h, fun _ => trivial⟩, ⟨fun _ => h, fun _ => trivial⟩,
        fun hne => absurd h hne⟩
    · have hd : decide (some d.date = currentDate) = false := by simp [h]
      simp only [timelineItem, hd, Bool.false_eq_true, if_false, e2, e4]
      exact ⟨⟨fun e => absurd e e3, fun e => absurd e h⟩,
        ⟨fun e => absurd e (e5 _), fun e => absurd e h⟩, fun _ => ⟨trivial, trivial⟩⟩
  · intro event outcome
    have hk : monthKey (lit "2026/01/05") = lit "2026-01" := by decide
    have hd : decide (some (lit "2026/01/05") = some (lit "2026-01-05")) = false := by decide
    have hf : filteredDays [⟨lit "2026/01/05", event, outcome⟩] (lit "2026-01") =
        [⟨lit "2026/01/05", event, outcome⟩] := by
      simp only [filteredDays, List.filter, hk, decide_True]
    unfold renderTimeline
    simp only [hf, List.length_singleton, one_ne_zero, if_false, List.map, timelineItem, hd,
      Bool.false_eq_true, e2, e4]

/-! ### Claims about the month selector -/

/-- C5: `renderMonthSelector` produces the twelve buttons 2026-01 to 2026-12 in calendar
order, a button is enabled if and only if its key is the month key of some record, and for
records dated 2026-01-05 and 2026-02-01 exactly the first two buttons are enabled. -/
theorem month_buttons (H : Host) (currentMonth : Option Str)
    (completedDays : List CompletedDay) :
    (renderMonthSelector H currentMonth completedDays).map (fun b => b.monthKey) =
        [lit "2026-01", lit "2026-02", lit "2026-03", lit "2026-04", lit "2026-05",
          lit "2026-06", lit "2026-07", lit "2026-08", lit "2026-09", lit "2026-10",
          lit "2026-11", lit "2026-12"] ∧
      (∀ b ∈ renderMonthSelector H currentMonth completedDays,
        (b.hasEvents = true ↔ ∃ d ∈ completedDays, monthKey d.date = b.monthKey)) ∧
      (∀ e₁ o₁ e₂ o₂ : Str,
        (renderMonthSelector H currentMonth
            [⟨lit "2026-01-05", e₁, o₁⟩, ⟨lit "2026-02-01", e₂, o₂⟩]).map
          (fun b => (b.monthKey, b.hasEvents)) =
        [(lit "2026-01", true), (lit "2026-02", true), (lit "2026-03", false),
          (lit "2026-04", false), (lit "2026-05", false), (lit "2026-06", false),
          (lit "2026-07", false), (lit "2026-08", false), (lit "2026-09", false),
          (lit "2026-10", false), (lit "2026-11", false), (lit "2026-12", false)]) := by
  have hall : allMonths = [lit "2026-01", lit "2026-02", lit "2026-03", lit "2026-04",
      lit "2026-05", lit "2026-06", lit "2026-07", lit "2026-08", lit "2026-09", lit "2026-10",
      lit "2026-11", lit "2026-12"] := by decide
  refine ⟨?_, ?_, ?_⟩
  · unfold renderMonthSelector
    rw [List.map_map, ← hall]
    exact List.map_id _
  · intro b hb
    unfold renderMonthSelector at hb
    obtain ⟨key, _, rfl⟩ := List.mem_map.1 hb
    simp only [decide_eq_true_eq]
    exact mem_months completedDays key
  · intro e₁ o₁ e₂ o₂
    have hm : months [⟨lit "2026-01-05", e₁, o₁⟩, ⟨lit "2026-02-01", e₂, o₂⟩] =
        months [⟨lit "2026-01-05", [], []⟩, ⟨lit "2026-02-01", [], []⟩] :=
      months_eq_of_keys _ _ rfl
    have hv : months [⟨lit "2026-01-05", [], []⟩, ⟨lit "2026-02-01", [], []⟩] =
        [lit "2026-01", lit "2026-02"] := by decide
    have hb : ∀ days : List CompletedDay,
        (renderMonthSelector H currentMonth days).map (fun b => (b.monthKey, b.hasEvents)) =
          allMonths.map (fun key => (key, decide (key ∈ months days))) := by
      intro days
      unfold renderMonthSelector
      rw [List.map_map]
      rfl
    rw [hb, hm, hv]
    decide

/-- C6: the de-duplicated, sorted list `months` is the same for a list of records and for
every permutation of it, it has no duplicate key and is sorted, and so the whole row of month
buttons is the same for both. -/
theorem months_permutation_invariant (days₁ days₂ : List CompletedDay)
    (h : days₁.Perm days₂) :
    months days₁ = months days₂ ∧ (months days₁).Nodup ∧
      (months days₁).Sorted (fun a b => strLe a b = true) ∧
      (∀ (H : Host) (currentMonth : Option Str),
        renderMonthSelector H currentMonth days₁ = renderMonthSelector H currentMonth days₂) := by
  refine ⟨months_perm _ _ h, months_nodup _, months_sorted _, ?_⟩
  intro H currentMonth
  unfold renderMonthSelector
  rw [months_perm _ _ h]

/-- Witness of C6: two records in either order. -/
theorem months_permutation_invariant_witness :
    months [⟨lit "2026-02-01", lit "b", lit "y"⟩, ⟨lit "2026/01/05", lit "a", lit "x"⟩] =
        months [⟨lit "2026/01/05", lit "a", lit "x"⟩, ⟨lit "2026-02-01", lit "b", lit "y"⟩] ∧
      (months
        [⟨lit "2026-02-01", lit "b", lit "y"⟩, ⟨lit "2026/01/05", lit "a", lit "x"⟩]).Nodup :=
  have h := months_permutation_invariant
    [⟨lit "2026-02-01", lit "b", lit "y"⟩, ⟨lit "2026/01/05", lit "a", lit "x"⟩]
    [⟨lit "2026/01/05", lit "a", lit "x"⟩, ⟨lit "2026-02-01", lit "b", lit "y"⟩]
    (List.Perm.swap _ _ _)
  ⟨h.1, h.2.1⟩

/-! ### Malformed dates -/

/-- C10, as the code stands: the strings 2026-xx-05 (a non-numeric component) and 2026-01
(two components) are split and keyed like any other date: they get the month keys 2026-xx
and 2026-01, the first appears among the available months and the second is selected by the
timeline filter for 2026-01. -/
theorem malformed_date_keyed_example :
    splitDate (lit "2026-xx-05") = [lit "2026", lit "xx", lit "05"] ∧
      monthKey (lit "2026-xx-05") = lit "2026-xx" ∧
      months [⟨lit "2026-xx-05", lit "e", lit "o"⟩] = [lit "2026-xx"] ∧
      splitDate (lit "2026-01") = [lit "2026", lit "01"] ∧
      monthKey (lit "2026-01") = lit "2026-01" ∧
      filteredDays [⟨lit "2026-01", lit "e", lit "o"⟩] (lit "2026-01") =
        [⟨lit "2026-01", lit "e", lit "o"⟩] := by
  decide

/-- C10 amended: no date string is rejected. For every record of `completedDays`, whatever
its date string, the month-key split yields a key, that key is among the available months of
`renderMonthSelector`, and `renderTimeline` for that key renders the record; `formatDate`
hands the components to the host unchecked, a missing one as undefined, and returns the
host's label. -/
theorem malformed_date_not_rejected (H : Host) (completedDays : List CompletedDay)
    (currentDate : Option Str) (d : CompletedDay) (hd : d ∈ completedDays) :
    monthKey d.date ∈ months completedDays ∧
      (∃ items, renderTimeline H completedDays currentDate (monthKey d.date) =
          Timeline.items items ∧ timelineItem H currentDate d ∈ items) ∧
      (∀ y, splitDate d.date = [y] →
        monthKey d.date = y ++ lit "-undefined" ∧
        formatDate H d.date = H.longDate (some y) none none) ∧
      (∀ y m, splitDate d.date = [y, m] →
        monthKey d.date = y ++ lit "-" ++ m ∧
        formatDate H d.date = H.longDate (some y) (some m) none) ∧
      (∀ y m dd rest, splitDate d.date = y :: m :: dd :: rest →
        monthKey d.date = y ++ lit "-" ++ m ∧
        formatDate H d.date = H.longDate (some y) (some m) (some dd)) := by
  have hf : d ∈ filteredDays completedDays (monthKey d.date) := by
    simp [filteredDays, List.mem_filter, hd]
  refine ⟨(mem_months _ _).2 ⟨d, hd, rfl⟩, ?_, ?_, ?_, ?_⟩
  · refine ⟨(filteredDays completedDays (monthKey d.date)).map (timelineItem H currentDate),
      ?_, List.mem_map_of_mem _ hf⟩
    unfold renderTimeline
    have hne : (filteredDays completedDays (monthKey d.date)).length ≠ 0 := by
      intro h0
      rw [List.length_eq_zero] at h0
      rw [h0] at hf
      exact absurd hf (List.not_mem_nil _)
    simp only [hne, if_false]
  · intro y h
    have e : lit "-" ++ lit "undefined" = lit "-undefined" := by decide
    unfold monthKey formatDate yearPart monthPart dayPart
    rw [h]
    simp [tpl, e]
  · intro y m h
    unfold monthKey formatDate yearPart monthPart dayPart
    rw [h]
    simp [tpl]
  · intro y m dd rest h
    unfold monthKey formatDate yearPart monthPart dayPart
    rw [h]
    simp [tpl]

/-- Witness of C10 amended at the record dated 2026-xx-05. -/
theorem malformed_date_not_rejected_witness :
    lit "2026-xx" ∈ months [⟨lit "2026-xx-05", lit "e", lit "o"⟩] ∧
      ∀ H : Host, ∃ items,
        renderTimeline H [⟨lit "2026-xx-05", lit "e", lit "o"⟩] (some (lit "2026-01-05"))
            (monthKey (lit "2026-xx-05")) = Timeline.items items ∧
          timelineItem H (some (lit "2026-01-05")) ⟨lit "2026-xx-05", lit "e", lit "o"⟩ ∈
            items :=
  ⟨by decide, fun H =>
    (malformed_date_not_rejected H [⟨lit "2026-xx-05", lit "e", lit "o"⟩]
      (some (lit "2026-01-05")) ⟨lit "2026-xx-05", lit "e", lit "o"⟩
      (List.mem_singleton.2 rfl)).2.1⟩

/-! ### Modifier labels -/

theorem capitalizeWords_getD (s : Str) : ∀ (prevWord : Bool) (i : Nat),
    (capitalizeWords prevWord s).getD i 0 =
      if isWordChar (s.getD i 0) &&
          !(if i = 0 then prevWord else isWordChar (s.getD (i - 1) 0)) then
        toUpperCase (s.getD i 0)
      else s.getD i 0 := by
  induction s with
  | nil => intro prevWord i; simp [capitalizeWords, isWordChar]
  | cons c cs ih =>
    intro prevWord i
    cases i with
    | zero => simp [capitalizeWords]
    | succ j =>
      simp only [capitalizeWords, List.getD_cons_succ, ih, Nat.add_sub_cancel]
      cases j with
      | zero => simp
      | succ k => simp

theorem capitalizeWords_length (s : Str) : ∀ prevWord : Bool,
    (capitalizeWords prevWord s).length = s.length := by
  induction s with
  | nil => intro _; rfl
  | cons c cs ih => intro prevWord; simp [capitalizeWords, ih]

theorem capitalizeWords_eq_afterSpaces (s : Str)
    (hs : ∀ c ∈ s, isWordChar c = true ∨ c = 32) : ∀ prevWord : Bool,
    capitalizeWords prevWord s = capitalizeAfterSpaces (!prevWord) s := by
  induction s with
  | nil => intro _; rfl
  | cons c cs ih =>
    intro prevWord
    have ih2 := ih (fun x hx => hs x (List.mem_cons_of_mem _ hx))
    rcases hs c (List.mem_cons_self _ _) with h | h
    · have h32 : c ≠ 32 := by
        intro e; subst e; simp [isWordChar] at h
      simp only [capitalizeWords, capitalizeAfterSpaces, ih2, h, h32, decide_False,
        Bool.not_false, Bool.and_true, Bool.true_and, Bool.not_true]
    · subst h
      have hw : isWordChar 32 = false := by decide
      simp only [capitalizeWords, capitalizeAfterSpaces, ih2, hw, decide_True,
        Bool.not_true, Bool.and_false, Bool.false_and, Bool.false_eq_true, if_false,
        Bool.not_false]

/-- C8, as the code stands: in the key `fire-resist` the letter after the hyphen is
upper-cased, and in `don't` the letter after the apostrophe, whereas upper-casing only the
first letter of each space-delimited word would leave them unchanged. -/
theorem modifierLabel_after_punctuation_example :
    modifierLabel (lit "fire-resist") = lit "Fire-Resist" ∧
      specLabel (lit "fire-resist") = lit "Fire-resist" ∧
      modifierLabel (lit "don't_stop") = lit "Don'T Stop" ∧
      specLabel (lit "don't_stop") = lit "Don't Stop" := by
  decide

/-- C8 amended: the badge label is the key with every underscore replaced by a space and
then every word character (ASCII letter or digit) that is not preceded by a word character
upper-cased, all other code units unchanged and in place; so a letter that follows a hyphen,
an apostrophe or any other non-word character is upper-cased too, and on keys made only of
word characters and spaces the label is the space-delimited title case. -/
theorem modifierLabel_word_starts (key : Str) :
    (modifierLabel key).length = key.length ∧
      (∀ i : Nat, (replaceUnderscores key).getD i 0 =
        if key.getD i 0 = 95 then 32 else key.getD i 0) ∧
      (∀ i : Nat, (modifierLabel key).getD i 0 =
        if isWordChar ((replaceUnderscores key).getD i 0) &&
            !(decide (i ≠ 0) && isWordChar ((replaceUnderscores key).getD (i - 1) 0)) then
          toUpperCase ((replaceUnderscores key).getD i 0)
        else (replaceUnderscores key).getD i 0) ∧
      ((∀ c ∈ key, isWordChar c = true ∨ c = 32) → modifierLabel key = specLabel key) := by
  refine ⟨?_, ?_, ?_, ?_⟩
  · simp [modifierLabel, capitalizeWords_length, replaceUnderscores]
  · intro i
    unfold replaceUnderscores
    by_cases hi : i < key.length
    · simp [List.getD_eq_getElem?_getD, List.getElem?_map, List.getElem?_eq_getElem hi]
    · have h1 : key.length ≤ i := by omega
      simp [List.getD_eq_getElem?_getD, List.getElem?_map, List.getElem?_eq_none h1]
  · intro i
    unfold modifierLabel
    rw [capitalizeWords_getD]
    cases i with
    | zero => simp
    | succ j => simp
  · intro h
    unfold modifierLabel specLabel
    rw [capitalizeWords_eq_afterSpaces _ _ false]
    · rfl
    · intro c hc
      unfold replaceUnderscores at hc
      obtain ⟨x, hx, rfl⟩ := List.mem_map.1 hc
      by_cases h95 : x = 95
      · right; simp [h95]
      · simp only [h95, if_false]; exact h x hx

/-! ### Outcome highlighting -/

theorem matchLiteral_sound : ∀ (p s m r : Str), matchLiteral p s = some (m, r) →
    s = m ++ r ∧ m.map canon = p.map canon
  | [], s, m, r, h => by
    simp only [matchLiteral, Option.some.injEq, Prod.mk.injEq] at h
    obtain ⟨rfl, rfl⟩ := h
    exact ⟨rfl, rfl⟩
  | _ :: _, [], _, _, h => by simp [matchLiteral] at h
  | p :: ps, c :: cs, m, r, h => by
    unfold matchLiteral at h
    by_cases hc : canon c = canon p
    · simp only [hc, if_true] at h
      cases hrec : matchLiteral ps cs with
      | none => rw [hrec] at h; cases h
      | some x =>
        obtain ⟨m₀, r₀⟩ := x
        rw [hrec] at h
        simp only [Option.some.injEq, Prod.mk.injEq] at h
        obtain ⟨rfl, rfl⟩ := h
        obtain ⟨e1, e2⟩ := matchLiteral_sound ps cs m₀ r₀ hrec
        exact ⟨by rw [e1]; rfl, by simp [hc, e2]⟩
    · simp [hc] at h

theorem matchLiteral_complete : ∀ (p m r : Str), m.map canon = p.map canon →
    matchLiteral p (m ++ r) = some (m, r)
  | [], m, r, h => by
    have : m = [] := by simpa using h
    subst this
    rfl
  | p :: ps, [], _, h => by simp at h
  | p :: ps, c :: cs, r, h => by
    simp only [List.map_cons, List.cons.injEq] at h
    have ih := matchLiteral_complete ps cs r h.2
    show matchLiteral (p :: ps) (c :: (cs ++ r)) = some (c :: cs, r)
    simp only [matchLiteral, h.1, if_true, ih]

theorem head_of_eqIgnoreCase (p m r : Str) (h : m.map canon = p.map canon) (hp : p ≠ []) :
    (m ++ r).head?.map canon = p.head?.map canon := by
  cases p with
  | nil => exact absurd rfl hp
  | cons p₀ ps =>
    cases m with
    | nil => simp at h
    | cons c cs =>
      simp only [List.map_cons, List.cons.injEq] at h
      simp [h.1]

theorem matchLiteral_head (p s : Str) (x : Str × Str) (h : matchLiteral p s = some x)
    (hp : p ≠ []) : s.head?.map canon = p.head?.map canon := by
  obtain ⟨m, r⟩ := x
  obtain ⟨e1, e2⟩ := matchLiteral_sound p s m r h
  rw [e1]
  exact head_of_eqIgnoreCase p m r e2 hp

theorem matchLiteral_none_of_head (p s : Str) (hp : p ≠ [])
    (h : s.head?.map canon ≠ p.head?.map canon) : matchLiteral p s = none := by
  cases hm : matchLiteral p s with
  | none => rfl
  | some x => exact absurd (matchLiteral_head p s x hm hp) h

theorem takeWhile_append_dropWhile (f : Nat → Bool) (l : Str) :
    l.takeWhile f ++ l.dropWhile f = l := List.takeWhile_append_dropWhile f l

theorem digits_le_takeWhile : ∀ (ds r : Str), (∀ c ∈ ds, isDigit c = true) →
    ds.length ≤ ((ds ++ r).takeWhile isDigit).length
  | [], _, _ => Nat.zero_le _
  | d :: ds, r, h => by
    have hd : isDigit d = true := h d (List.mem_cons_self _ _)
    have ih := digits_le_takeWhile ds r (fun c hc => h c (List.mem_cons_of_mem _ hc))
    simp only [List.cons_append, List.takeWhile_cons, hd, if_true, List.length_cons]
    omega

theorem matchResult_sound (s m r : Str) (h : matchResult s = some (m, r)) :
    s = m ++ r ∧ ∃ r₀ ds, m = r₀ ++ ds ∧ eqIgnoreCase r₀ (lit "Result ") ∧ ds ≠ [] ∧
      ∀ c ∈ ds, isDigit c = true := by
  unfold matchResult at h
  cases hm : matchLiteral (lit "Result ") s with
  | none => rw [hm] at h; cases h
  | some x =>
    obtain ⟨m₀, r₀⟩ := x
    rw [hm] at h
    simp only at h
    by_cases ht : r₀.takeWhile isDigit = []
    · simp [ht] at h
    · simp only [ht, if_false, Option.some.injEq, Prod.mk.injEq] at h
      obtain ⟨rfl, rfl⟩ := h
      obtain ⟨e1, e2⟩ := matchLiteral_sound _ _ _ _ hm
      refine ⟨?_, m₀, r₀.takeWhile isDigit, rfl, e2, ht, ?_⟩
      · rw [List.append_assoc, takeWhile_append_dropWhile, e1]
      · intro c hc
        exact (List.mem_takeWhile_imp hc)

theorem matchResult_complete (r₀ ds r : Str) (h0 : eqIgnoreCase r₀ (lit "Result "))
    (hne : ds ≠ []) (hds : ∀ c ∈ ds, isDigit c = true) :
    ∃ m r₂, matchResult (r₀ ++ ds ++ r) = some (m, r₂) ∧ (r₀ ++ ds).length ≤ m.length := by
  have hm : matchLiteral (lit "Result ") (r₀ ++ (ds ++ r)) = some (r₀, ds ++ r) :=
    matchLiteral_complete _ _ _ h0
  have hlen := digits_le_takeWhile ds r hds
  have hpos : 0 < ds.length := List.length_pos.2 hne
  have ht : (ds ++ r).takeWhile isDigit ≠ [] := by
    intro e
    rw [e] at hlen
    simp only [List.length_nil] at hlen
    omega
  refine ⟨r₀ ++ (ds ++ r).takeWhile isDigit, (ds ++ r).dropWhile isDigit, ?_, ?_⟩
  · unfold matchResult
    rw [List.append_assoc, hm]
    simp only [ht, if_false]
  · simp only [List.length_append]
    omega

theorem matchAt_sound (s m r : Str) (h : matchAt s = some (m, r)) :
    s = m ++ r ∧ IsPhrase m := by
  unfold matchAt at h
  cases h1 : matchLiteral (lit "Success") s with
  | some x =>
    rw [h1] at h
    simp only [Option.some.injEq] at h
    subst h
    obtain ⟨e1, e2⟩ := matchLiteral_sound _ _ _ _ h1
    exact ⟨e1, Or.inl e2⟩
  | none =>
    rw [h1] at h
    simp only at h
    cases h2 : matchLiteral (lit "Victory") s with
    | some x =>
      rw [h2] at h
      simp only [Option.some.injEq] at h
      subst h
      obtain ⟨e1, e2⟩ := matchLiteral_sound _ _ _ _ h2
      exact ⟨e1, Or.inr (Or.inl e2)⟩
    | none =>
      rw [h2] at h
      simp only at h
      cases h3 : matchResult s with
      | some x =>
        rw [h3] at h
        simp only [Option.some.injEq] at h
        subst h
        obtain ⟨e1, e2⟩ := matchResult_sound _ _ _ h3
        exact ⟨e1, Or.inr (Or.inr (Or.inr e2))⟩
      | none =>
        rw [h3] at h
        simp only at h
        obtain ⟨e1, e2⟩ := matchLiteral_sound _ _ _ _ h
        exact ⟨e1, Or.inr (Or.inr (Or.inl e2))⟩

theorem matchResult_none_of_head (s : Str)
    (h : s.head?.map canon ≠ (lit "Result ").head?.map canon) : matchResult s = none := by
  unfold matchResult
  rw [matchLiteral_none_of_head _ _ (by decide) h]

theorem matchAt_complete (m₂ r₂ : Str) (hp : IsPhrase m₂) :
    ∃ m r, matchAt (m₂ ++ r₂) = some (m, r) ∧ m₂.length ≤ m.length := by
  rcases hp with h | h | h | ⟨r₀, ds, rfl, h0, hne, hds⟩
  · refine ⟨m₂, r₂, ?_, Nat.le_refl _⟩
    unfold matchAt
    rw [matchLiteral_complete _ _ _ h]
  · have hh := head_of_eqIgnoreCase _ m₂ r₂ h (by decide)
    have hS : matchLiteral (lit "Success") (m₂ ++ r₂) = none :=
      matchLiteral_none_of_head _ _ (by decide) (by rw [hh]; decide)
    refine ⟨m₂, r₂, ?_, Nat.le_refl _⟩
    unfold matchAt
    rw [hS, matchLiteral_complete _ _ _ h]
  · have hh := head_of_eqIgnoreCase _ m₂ r₂ h (by decide)
    have hS : matchLiteral (lit "Success") (m₂ ++ r₂) = none :=
      matchLiteral_none_of_head _ _ (by decide) (by rw [hh]; decide)
    have hV : matchLiteral (lit "Victory") (m₂ ++ r₂) = none :=
      matchLiteral_none_of_head _ _ (by decide) (by rw [hh]; decide)
    have hR : matchResult (m₂ ++ r₂) = none :=
      matchResult_none_of_head _ (by rw [hh]; decide)
    refine ⟨m₂, r₂, ?_, Nat.le_refl _⟩
    unfold matchAt
    rw [hS, hV, hR, matchLiteral_complete _ _ _ h]
  · have hh := head_of_eqIgnoreCase _ r₀ (ds ++ r₂) h0 (by decide)
    rw [← List.append_assoc] at hh
    have hS : matchLiteral (lit "Success") (r₀ ++ ds ++ r₂) = none :=
      matchLiteral_none_of_head _ _ (by decide) (by rw [hh]; decide)
    have hV : matchLiteral (lit "Victory") (r₀ ++ ds ++ r₂) = none :=
      matchLiteral_none_of_head _ _ (by decide) (by rw [hh]; decide)
    obtain ⟨m, r, hm, hlen⟩ := matchResult_complete r₀ ds r₂ h0 hne hds
    refine ⟨m, r, ?_, hlen⟩
    unfold matchAt
    rw [hS, hV, hm]

theorem isPhrase_ne_nil (m : Str) (hp : IsPhrase m) : m ≠ [] := by
  rintro rfl
  rcases hp with h | h | h | ⟨r₀, ds, e, _, hne, _⟩
  · exact absurd h (by decide)
  · exact absurd h (by decide)
  · exact absurd h (by decide)
  · have := congrArg List.length e
    simp only [List.length_nil, List.length_append] at this
    have := List.length_pos.2 hne
    omega

theorem matchAt_rest_length (s m r : Str) (h : matchAt s = some (m, r)) :
    r.length < s.length := by
  obtain ⟨e, hp⟩ := matchAt_sound s m r h
  have := List.length_pos.2 (isPhrase_ne_nil m hp)
  rw [e, List.length_append]
  omega

theorem replaceAll_fuel : ∀ (n k : Nat) (s : Str), s.length ≤ n → s.length ≤ k →
    replaceAll n s = replaceAll k s
  | 0, k, s, hn, _ => by
    have : s = [] := List.length_eq_zero.1 (Nat.le_zero.1 hn)
    subst this
    cases k <;> rfl
  | n + 1, 0, s, _, hk => by
    have : s = [] := List.length_eq_zero.1 (Nat.le_zero.1 hk)
    subst this
    rfl
  | n + 1, k + 1, [], _, _ => rfl
  | n + 1, k + 1, c :: cs, hn, hk => by
    simp only [List.length_cons] at hn hk
    unfold replaceAll
    cases hm : matchAt (c :: cs) with
    | none =>
      simp only
      rw [replaceAll_fuel n k cs (by omega) (by omega)]
    | some x =>
      obtain ⟨m, rest⟩ := x
      have hl := matchAt_rest_length _ _ _ hm
      simp only [List.length_cons] at hl
      simp only
      rw [replaceAll_fuel n k rest (by omega) (by omega)]

theorem formatOutcome_nil : formatOutcome [] = [] := rfl

theorem formatOutcome_keep (c : Nat) (cs : Str) (h : matchAt (c :: cs) = none) :
    formatOutcome (c :: cs) = c :: formatOutcome cs := by
  unfold formatOutcome
  simp only [List.length_cons, replaceAll, h]

theorem formatOutcome_mark (s m rest : Str) (h : matchAt s = some (m, rest)) :
    formatOutcome s = spanOpen ++ m ++ spanClose ++ formatOutcome rest := by
  have hl := matchAt_rest_length _ _ _ h
  cases s with
  | nil => simp at hl
  | cons c cs =>
    simp only [List.length_cons] at hl
    unfold formatOutcome
    simp only [List.length_cons, replaceAll, h]
    rw [replaceAll_fuel cs.length rest.length rest (by omega) (Nat.le_refl _)]

theorem formatOutcome_highlighted : ∀ (n : Nat) (s : Str), s.length ≤ n →
    Highlighted s (formatOutcome s)
  | _, [], _ => by
    rw [formatOutcome_nil]
    exact Highlighted.done
  | 0, _ :: _, h => by simp at h
  | n + 1, c :: cs, h => by
    simp only [List.length_cons] at h
    cases hm : matchAt (c :: cs) with
    | none =>
      rw [formatOutcome_keep c cs hm]
      refine Highlighted.keep c cs _ ?_ (formatOutcome_highlighted n cs (by omega))
      intro m r hp e
      obtain ⟨m', r', h', _⟩ := matchAt_complete m r hp
      rw [← e, hm] at h'
      cases h'
    | some x =>
      obtain ⟨m, rest⟩ := x
      have hl := matchAt_rest_length _ _ _ hm
      simp only [List.length_cons] at hl
      obtain ⟨e, hp⟩ := matchAt_sound _ _ _ hm
      rw [formatOutcome_mark _ _ _ hm, e]
      refine Highlighted.mark m rest _ hp ?_ (formatOutcome_highlighted n rest (by omega))
      intro m₂ r₂ hp₂ e₂
      obtain ⟨m', r', h', hlen⟩ := matchAt_complete m₂ r₂ hp₂
      rw [← e₂, ← e, hm] at h'
      simp only [Option.some.injEq, Prod.mk.injEq] at h'
      rw [h'.1]
      exact hlen

theorem highlighted_unique (s out : Str) (h : Highlighted s out) : out = formatOutcome s := by
  induction h with
  | done => rfl
  | keep c rest out hno _ ih =>
    have hm : matchAt (c :: rest) = none := by
      cases hm : matchAt (c :: rest) with
      | none => rfl
      | some x =>
        obtain ⟨m, r⟩ := x
        obtain ⟨e, hp⟩ := matchAt_sound _ _ _ hm
        exact absurd e (hno m r hp)
    rw [formatOutcome_keep c rest hm, ih]
  | mark m rest out hp hmax _ ih =>
    obtain ⟨m', r', h', hlen⟩ := matchAt_complete m rest hp
    obtain ⟨e, hp'⟩ := matchAt_sound _ _ _ h'
    have hle := hmax m' r' hp' e
    have heq : m.length = m'.length := by omega
    obtain ⟨e1, e2⟩ := List.append_inj e heq
    subst e1
    subst e2
    rw [formatOutcome_mark _ _ _ h', ih]

/-- C4: `formatOutcome` wraps, from left to right and without overlap, every occurrence in
any letter case of `Success`, `Victory`, `Partial Success` or `Result ` followed by digits in
the emphasis marker, keeping the matched text as written and every other code unit unchanged
and in place, and this determines its result; `Partial Success` is wrapped as one phrase
and `Result 42 and success` gets two separate spans. -/
theorem formatOutcome_highlights (text : Str) :
    Highlighted text (formatOutcome text) ∧
      (∀ out, Highlighted text out → out = formatOutcome text) ∧
      formatOutcome (lit "Partial Success") =
        lit "<span class=\"success\">Partial Success</span>" ∧
      formatOutcome (lit "Result 42 and success") =
        lit "<span class=\"success\">Result 42</span> and <span class=\"success\">success</span>" :=
  ⟨formatOutcome_highlighted text.length text (Nat.le_refl _), highlighted_unique text,
    by decide, by decide⟩

/-! ### Loading a document -/

theorem renderStats_none_of_missing (data : QuestDocument)
    (hmiss : data.character = none ∨ data.quest_progress = none ∨
      (∃ c, data.character = some c ∧ c.stats = none) ∨
      (∃ q, data.quest_progress = some q ∧ q.completed_days = none)) :
    renderStats data.character data.quest_progress = none := by
  unfold renderStats
  rcases hmiss with h | h | ⟨c, h, hs⟩ | ⟨q, h, hq⟩
  · rw [h]
  · rw [h]
    cases data.character with
    | none => rfl
    | some c => cases hst : c.stats <;> simp only [hst]
  · rw [h]
    simp only [hs]
  · rw [h]
    cases data.character with
    | none => rfl
    | some c => cases hst : c.stats <;> simp only [hst, hq]

/-- C9, as the code stands: after the complete sample document is loaded, uploading the
document without `character` fails, and `questData` is then the rejected document, not the
one loaded before; and a document without `current_date` is not rejected at all: it loads
without error and sets `currentMonth` to the text NaN-NaN. -/
theorem failed_load_replaces_questData_example :
    (∀ H : Host,
        (onFileRead H initialState (some sampleDocument)).questData = some sampleDocument ∧
        (onFileRead H (onFileRead H initialState (some sampleDocument))
            (some documentWithoutCharacter)).questData = some documentWithoutCharacter ∧
        (onFileRead H (onFileRead H initialState (some sampleDocument))
            (some documentWithoutCharacter)).errorContainer = Banner.error invalidJsonMessage ∧
        (loadQuestDataFromFile H (onFileRead H initialState (some sampleDocument))
            (some documentWithoutCharacter)).questData = some documentWithoutCharacter) ∧
      some documentWithoutCharacter ≠ some sampleDocument ∧
      (∀ H : Host,
        (onFileRead H initialState (some documentWithoutCurrentDate)).errorContainer =
          Banner.empty ∧
        (onFileRead H initialState (some documentWithoutCurrentDate)).currentMonth =
          some (lit "NaN-NaN")) := by
  refine ⟨fun H => ⟨rfl, rfl, rfl, rfl⟩, by decide, fun H => ⟨rfl, ?_⟩⟩
  show some (currentMonthOf H none) = some (lit "NaN-NaN")
  have : currentMonthOf H none = lit "NaN-NaN" := by
    simp only [currentMonthOf, Option.bind]
    decide
  rw [this]

/-- C9 amended: when a loaded document is missing `character`, `quest_progress`,
`character.stats` or `quest_progress.completed_days`, rendering throws inside `renderStats`
and the failure is caught: `currentMonth` and everything rendered keep the values they had
before the load, `questData` is the rejected document, and the file-upload handler shows its
error and hides the content while `loadQuestDataFromFile` shows its warning. -/
theorem failed_load_keeps_currentMonth (H : Host) (s : AppState) (data : QuestDocument)
    (hmiss : data.character = none ∨ data.quest_progress = none ∨
      (∃ c, data.character = some c ∧ c.stats = none) ∨
      (∃ q, data.quest_progress = some q ∧ q.completed_days = none)) :
    renderQuestData H { s with questData := some data } data =
        Run.threw { s with questData := some data } ∧
      onFileRead H s (some data) =
        { s with
          questData := some data
          errorContainer := Banner.error invalidJsonMessage
          contentHidden := true } ∧
      (onFileRead H s (some data)).currentMonth = s.currentMonth ∧
      loadQuestDataFromFile H s (some data) =
        { s with questData := some data, errorContainer := Banner.warning } ∧
      (loadQuestDataFromFile H s (some data)).currentMonth = s.currentMonth := by
  have hr : renderQuestData H { s with questData := some data } data =
      Run.threw { s with questData := some data } := by
    unfold renderQuestData
    rw [renderStats_none_of_missing data hmiss]
  refine ⟨hr, ?_, ?_, ?_, ?_⟩
  · unfold onFileRead
    simp only [hr]
    rfl
  · unfold onFileRead
    simp only [hr]
    rfl
  · unfold loadQuestDataFromFile
    simp only [hr]
  · unfold loadQuestDataFromFile
    simp only [hr]

/-- Witness of C9 amended: the document without `character`, loaded after the sample. -/
theorem failed_load_keeps_currentMonth_witness :
    documentWithoutCharacter.character = none ∧
      ∀ H : Host,
        (onFileRead H (onFileRead H initialState (some sampleDocument))
          (some documentWithoutCharacter)).currentMonth =
        (onFileRead H initialState (some sampleDocument)).currentMonth :=
  ⟨rfl, fun H =>
    (failed_load_keeps_currentMonth H (onFileRead H initialState (some sampleDocument))
      documentWithoutCharacter (Or.inl rfl)).2.2.1⟩

end Saraku
